import Mathlib

set_option maxHeartbeats 1000000

/-!
Verification of the Banking AI Assistant core logic.

The development shallowly embeds the text-processing and bookkeeping logic of
`src/app/main.py` and `test/test_executor.py`:

* `extractCore` / `extract` — the SQL-extraction heuristic
  (`re.search(r'SELECT .*', text, re.IGNORECASE | re.DOTALL)`, then `.strip()`,
  then dropping one trailing `';'`).  Strings are modelled as their character
  lists; Python's `str.lower` / `str.strip` are modelled per ASCII character.
* `handleUserInput` / `roundStepFull` — the Streamlit conversation round:
  clarification-answer merging, the clarification marker branch, the SQL
  execution branch and the no-response branch.  The external inference service
  and the relational store are oracles (plain parameters), and the `Bool`
  component of `roundStepFull` records whether the relational store was called
  during the round.
* `run_query`, `generate_sql`, `execute_test_case`, `generate_summary_stats` —
  the test harness of `test_executor.py`; Python floats are modelled as `ℚ`,
  and caught exceptions of the two external calls are modelled as `Except`
  values fed in as parameters.
-/

/-! ## Python-style character and string primitives -/

/-- The ASCII whitespace characters stripped by Python's `str.strip()`. -/
def pyIsSpace (c : Char) : Bool :=
  c == ' ' || c == '\t' || c == '\n' || c == '\r' || c == '\x0b' || c == '\x0c'

/-- Strip leading whitespace (the front half of Python's `str.strip()`). -/
def lstrip (cs : List Char) : List Char := cs.dropWhile pyIsSpace

/-- Strip trailing whitespace (the back half of Python's `str.strip()`). -/
def rstrip (cs : List Char) : List Char := (cs.reverse.dropWhile pyIsSpace).reverse

/-- Python's `str.strip()` on a character list. -/
def pyStrip (cs : List Char) : List Char := rstrip (lstrip cs)

/-- Python's `str.startswith(pat)` on character lists. -/
def pyStartsWith (s pat : List Char) : Bool := pat.isPrefixOf s

/-- Substring test: Python's `pat in s` on character lists. -/
def containsList (pat : List Char) : List Char → Bool
  | [] => pat.isEmpty
  | c :: rest => pat.isPrefixOf (c :: rest) || containsList pat rest

/-! ## The SQL extraction heuristic -/

/-- The literal matched by the regex `SELECT .*` under `re.IGNORECASE`:
the match must begin with `SELECT` followed by a space (lower-cased here,
compared against the lower-cased input). -/
def selectSpacePat : List Char := ['s', 'e', 'l', 'e', 'c', 't', ' ']

/-- First (leftmost) suffix of the input whose lower-casing starts with
`"select "`; models `re.search(r'SELECT .*', s, re.IGNORECASE | re.DOTALL)`,
whose match, thanks to `DOTALL` and greediness, runs from the first occurrence
of `SELECT ` to the end of the string. -/
def findFrom : List Char → Option (List Char)
  | [] => none
  | c :: rest =>
    if selectSpacePat.isPrefixOf ((c :: rest).map Char.toLower) then some (c :: rest)
    else findFrom rest

/-- The bare token `select` (no following space), as the specification's words
"the token `SELECT`" read; used to state the claim-side of C4. -/
def selectWordPat : List Char := ['s', 'e', 'l', 'e', 'c', 't']

/-- The regex `SELECT .*` matches at position `i` of `cs`: the lower-cased
suffix starting at `i` begins with `"select "`. -/
def occursAt (cs : List Char) (i : Nat) : Bool :=
  selectSpacePat.isPrefixOf ((cs.drop i).map Char.toLower)

/-- Drop a single trailing `';'` if present: `if sql.endswith(';'): sql = sql[:-1]`. -/
def stripSemi (cs : List Char) : List Char :=
  if cs.getLast? = some ';' then cs.dropLast else cs

/-- The SQL-extraction pipeline of `main.py` lines 147–150 and
`test_executor.py` lines 142–145:
`match.group(0).strip() if match else response.strip()`, then drop one
trailing semicolon. -/
def extractCore (cs : List Char) : List Char :=
  stripSemi (pyStrip (match findFrom cs with
    | some suf => suf
    | none => cs))

/-- String-level wrapper of `extractCore`. -/
def extract (s : String) : String := String.mk (extractCore s.data)

/-- Decidable guard used to state the amended idempotence claim: the optional
last character is neither `';'` nor whitespace. -/
def goodEnd : Option Char → Bool
  | none => true
  | some c => !(c == ';') && !pyIsSpace c

/-! ## Clarification detection -/

/-- The word looked for by `"clarification" in last_assistant["content"].lower()`. -/
def clarWord : List Char := ['c', 'l', 'a', 'r', 'i', 'f', 'i', 'c', 'a', 't', 'i', 'o', 'n']

/-- The clarification chaining test of `main.py` line 118: the lower-cased
content contains the word `clarification`. -/
def signalsClarification (s : String) : Bool :=
  containsList clarWord (s.data.map Char.toLower)

/-- The clarification marker convention of the system prompt. -/
def clarificationMarker : String := "CLARIFICATION:"

/-- The advisory of the no-response branch (`main.py` lines 164–167). -/
def warningMessage : String :=
  "Could not generate a response. Please try rephrasing your question."

/-- Fuel-driven scan for `removeAllMarker`; the fuel is consumed one unit per
examined position while the list shrinks by at least one character per step,
so starting the fuel at the list length never exhausts it early. -/
def removeAllMarkerAux : Nat → List Char → List Char
  | 0, _ => []
  | _, [] => []
  | fuel + 1, c :: rest =>
    if clarificationMarker.data.isPrefixOf (c :: rest) then
      removeAllMarkerAux fuel (rest.drop 13)
    else c :: removeAllMarkerAux fuel rest

/-- Python's `s.replace( "CLARIFICATION:", "")`: remove every occurrence of the
marker, scanning left to right. -/
def removeAllMarker (cs : List Char) : List Char := removeAllMarkerAux cs.length cs

/-- `response.replace( "CLARIFICATION:", "").strip()` (`main.py` line 143). -/
def stripMarker (s : String) : String := String.mk (pyStrip (removeAllMarker s.data))

/-! ## The conversation state machine -/

/-- Role of a conversation turn. -/
inductive Role where
  | user
  | assistant
deriving DecidableEq

/-- One stored message of `st.session_state.messages`. -/
structure Turn where
  role : Role
  content : String
deriving DecidableEq

/-- Content of `messages[-1]` (unused default for the empty list, which the
code never reaches because of the length guard). -/
def lastContent (msgs : List Turn) : String :=
  match msgs.getLast? with
  | some t => t.content
  | none => ""

/-- The in-place merge `st.session_state.messages[-2]["content"] += " " + user_input`. -/
def mergeAt (msgs : List Turn) (u : String) : List Turn :=
  match msgs[msgs.length - 2]? with
  | some t => msgs.set (msgs.length - 2) ⟨t.role, t.content ++ " " ++ u⟩
  | none => msgs

/-- The input-handling step of `main.py` lines 113–126: when the conversation
has at least two turns and the last stored content contains the word
`clarification`, the new input is merged into the second-to-last turn and no
user turn is appended; otherwise a user turn is appended. -/
def handleUserInput (msgs : List Turn) (u : String) : List Turn :=
  if 2 ≤ msgs.length ∧ signalsClarification (lastContent msgs) = true then
    mergeAt msgs u
  else
    msgs ++ [⟨Role.user, u⟩]

/-- The assistant reply of one round, with a flag recording whether the
relational store was called.  `resp` is the (optional) inference response;
`execErr` is the outcome of `run_query` in the SQL branch (`none` = success,
`some e` = the exception text caught at line 160). -/
def assistantReply (resp : Option String) (execErr : Option String) : String × Bool :=
  match resp with
  | none => (warningMessage, false)
  | some r =>
    if pyStartsWith r.data clarificationMarker.data then (stripMarker r, false)
    else
      match execErr with
      | none => (extract r, true)
      | some e => ( "Error running query: " ++ e, true)

/-- One full conversation round of `main.py` lines 113–167: handle the input,
then append exactly one assistant turn whose content depends on the branch
taken.  The `Bool` result records whether `run_query` was called this round. -/
def roundStepFull (msgs : List Turn) (u : String) (resp : Option String)
    (execErr : Option String) : List Turn × Bool :=
  (handleUserInput msgs u ++ [⟨Role.assistant, (assistantReply resp execErr).1⟩],
   (assistantReply resp execErr).2)

/-- Conversation states reachable by the program: the empty session (also the
result of the reset action) and the result of any completed round. -/
inductive Reachable : List Turn → Prop where
  | empty : Reachable []
  | step (msgs : List Turn) (u : String) (resp : Option String) (execErr : Option String) :
      Reachable msgs → Reachable (roundStepFull msgs u resp execErr).1

/-! ## The test harness -/

/-- The `TestResult` dataclass of `test_executor.py` lines 14–23
(float modelled as `ℚ`). -/
structure TestResult where
  test_id : String
  query : String
  generated_sql : String
  execution_status : String
  execution_time : ℚ
  result_count : Nat
  error_message : Option String
  clarification_requested : Bool
deriving DecidableEq

/-- `TestExecutor.run_query` (`test_executor.py` lines 77–106): the missing
database file yields an error tuple; otherwise the store call (whose caught
exceptions are modelled by the `Except` oracle `db`) is converted to
`(rows, None)` or `(None, error)`. -/
def run_query (dbFound : Bool) (dbPathMsg : String)
    (db : String → Except String (List (List String))) (query : String) :
    Option (List (List String)) × Option String :=
  if dbFound then
    match db query with
    | .ok rows => (some rows, none)
    | .error e => (none, some e)
  else
    (none, some ( "Database not found at: " ++ dbPathMsg))

/-- `TestExecutor.generate_sql` (`test_executor.py` lines 108–118): the caught
inference failure is converted into the string `"Error generating SQL: <e>"`. -/
def generate_sql (llm : Except String String) : String :=
  match llm with
  | .ok content => content
  | .error e => "Error generating SQL: " ++ e

/-- `TestExecutor.execute_test_case` (`test_executor.py` lines 120–170).
`llm` is the outcome of the inference call, `exec` the outcome of `run_query`
on the extracted SQL (`.ok n` = success with `n` rows, `.error e` = error
tuple), `t` the measured wall-clock time.  The `Bool` result records whether
`run_query` was called. -/
def execute_test_case (test_id query : String) (llm : Except String String)
    (exec : String → Except String Nat) (t : ℚ) : TestResult × Bool :=
  if pyStartsWith (generate_sql llm).data clarificationMarker.data then
    ({ test_id := test_id, query := query, generated_sql := generate_sql llm,
       execution_status := "CLARIFICATION_REQUESTED", execution_time := t,
       result_count := 0, error_message := none, clarification_requested := true }, false)
  else
    match exec (extract (generate_sql llm)) with
    | .error err =>
        ({ test_id := test_id, query := query, generated_sql := extract (generate_sql llm),
           execution_status := "FAILED", execution_time := t,
           result_count := 0, error_message := some err,
           clarification_requested := false }, true)
    | .ok n =>
        ({ test_id := test_id, query := query, generated_sql := extract (generate_sql llm),
           execution_status := "PASSED", execution_time := t,
           result_count := n, error_message := none,
           clarification_requested := false }, true)

/-- The summary record of `TestReportGenerator.generate_summary_stats`. -/
structure SummaryStats where
  total_tests : Nat
  passed : Nat
  failed : Nat
  clarification_requested : Nat
  pass_rate : ℚ
  average_execution_time : ℚ
deriving DecidableEq

/-- `TestReportGenerator.generate_summary_stats` (`test_executor.py`
lines 177–193), with the two `if total_tests > 0 else 0` guards. -/
def generate_summary_stats (rs : List TestResult) : SummaryStats :=
  { total_tests := rs.length,
    passed := (rs.filter (fun r => r.execution_status == "PASSED")).length,
    failed := (rs.filter (fun r => r.execution_status == "FAILED")).length,
    clarification_requested :=
      (rs.filter (fun r => r.execution_status == "CLARIFICATION_REQUESTED")).length,
    pass_rate :=
      if 0 < rs.length then
        ((rs.filter (fun r => r.execution_status == "PASSED")).length : ℚ)
          / (rs.length : ℚ) * 100
      else 0,
    average_execution_time :=
      if 0 < rs.length then (rs.map (fun r => r.execution_time)).sum / (rs.length : ℚ)
      else 0 }

/-- Pass rate as the specification words it: `passed / total * 100`, and `0`
when `total == 0`. -/
def specPassRate (rs : List TestResult) : ℚ :=
  if rs.length = 0 then 0
  else ((rs.filter (fun r => r.execution_status == "PASSED")).length : ℚ) / (rs.length : ℚ) * 100

/-- Average execution time as the specification words it: the arithmetic mean
of the execution times, and `0` for an empty result set. -/
def specMean (rs : List TestResult) : ℚ :=
  if rs = [] then 0
  else (rs.map (fun r => r.execution_time)).sum / (rs.length : ℚ)

-- Scratch sanity checks (evaluation behaviour of the embedding).
example : extract "SELECT 1;" = "SELECT 1" := by decide
example : extract "SELECT ;" = "SELECT " := by decide
example : extract "SELECT " = "SELECT" := by decide
example : extract "x SELECT" = "x SELECT" := by decide
example : extract "  hi  " = "hi" := by decide
example : signalsClarification "CLARIFICATION: which period?" = true := by decide
example : signalsClarification warningMessage = false := by decide
example : stripMarker "CLARIFICATION: What timeframe?" = "What timeframe?" := by decide
example :
    handleUserInput [⟨Role.user, "Show transactions"⟩,
      ⟨Role.assistant, "CLARIFICATION: which period?"⟩] "last 7 days"
    = [⟨Role.user, "Show transactions last 7 days"⟩,
       ⟨Role.assistant, "CLARIFICATION: which period?"⟩] := by decide

/-! ## Generic list lemmas -/

theorem pre_append_left {α : Type _} {l₁ l₂ : List α} (l₃ : List α) (h : l₁ <+: l₂) :
    l₁ <+: l₂ ++ l₃ := by
  obtain ⟨t, rfl⟩ := h
  exact ⟨t ++ l₃, by simp⟩

theorem pre_trans {α : Type _} {l₁ l₂ l₃ : List α} (h₁ : l₁ <+: l₂) (h₂ : l₂ <+: l₃) :
    l₁ <+: l₃ := by
  obtain ⟨t, rfl⟩ := h₁
  obtain ⟨s, rfl⟩ := h₂
  exact ⟨t ++ s, by simp⟩

theorem pre_length {α : Type _} {l₁ l₂ : List α} (h : l₁ <+: l₂) : l₁.length ≤ l₂.length := by
  obtain ⟨t, rfl⟩ := h
  simp

theorem pre_head {α : Type _} {l₁ l₂ : List α} {c : α} (h : l₁ <+: l₂)
    (hc : l₁.head? = some c) : l₂.head? = some c := by
  obtain ⟨t, rfl⟩ := h
  cases l₁ with
  | nil => simp at hc
  | cons a as =>
    simp at hc ⊢
    exact hc

theorem take_pre {α : Type _} (n : Nat) (l : List α) : l.take n <+: l :=
  ⟨l.drop n, List.take_append_drop n l⟩

theorem dropLast_pre {α : Type _} (l : List α) : l.dropLast <+: l := by
  rw [List.dropLast_eq_take]
  exact take_pre _ l

theorem isPre_iff : ∀ (l₁ l₂ : List Char), l₁.isPrefixOf l₂ = true ↔ l₁ <+: l₂
  | [], l₂ => ⟨fun _ => ⟨l₂, rfl⟩, fun _ => by cases l₂ <;> rfl⟩
  | a :: as, [] => by
    constructor
    · intro h
      simp [List.isPrefixOf] at h
    · rintro ⟨t, ht⟩
      simp at ht
  | a :: as, b :: bs => by
    constructor
    · intro h
      simp only [List.isPrefixOf, Bool.and_eq_true, beq_iff_eq] at h
      obtain ⟨rfl, h2⟩ := h
      obtain ⟨t, rfl⟩ := (isPre_iff as bs).1 h2
      exact ⟨t, rfl⟩
    · rintro ⟨t, ht⟩
      simp only [List.cons_append, List.cons.injEq] at ht
      obtain ⟨rfl, ht⟩ := ht
      simp only [List.isPrefixOf, Bool.and_eq_true, beq_iff_eq]
      exact ⟨by trivial, (isPre_iff as bs).2 ⟨t, ht⟩⟩

theorem dropWhile_head_not {α : Type _} {p : α → Bool} :
    ∀ (l : List α) (c : α), (l.dropWhile p).head? = some c → p c = false
  | [], c => by simp [List.dropWhile]
  | a :: t, c => by
    by_cases h : p a
    · rw [List.dropWhile_cons, if_pos h]
      exact dropWhile_head_not t c
    · rw [List.dropWhile_cons, if_neg h]
      intro hc
      simp at hc
      subst hc
      exact Bool.of_not_eq_true h

theorem suf_rev_pre {α : Type _} {l₁ l₂ : List α} (h : l₁ <:+ l₂) :
    l₁.reverse <+: l₂.reverse := by
  obtain ⟨t, rfl⟩ := h
  exact ⟨t.reverse, by simp [List.reverse_append]⟩

theorem dropWhile_app {α : Type _} (p : α → Bool) : ∀ (a b : List α),
    (a ++ b).dropWhile p =
      if (a.dropWhile p).isEmpty then b.dropWhile p else a.dropWhile p ++ b
  | [], b => by simp
  | c :: t, b => by
    by_cases h : p c
    · simp only [List.cons_append, List.dropWhile_cons, h, if_true, if_pos]
      exact dropWhile_app p t b
    · simp [List.dropWhile_cons, h]

/-! ## Lemmas about the strip operations -/

theorem rstrip_pre (l : List Char) : rstrip l <+: l := by
  have h := suf_rev_pre (List.dropWhile_suffix (l := l.reverse) pyIsSpace)
  rw [List.reverse_reverse] at h
  exact h

theorem rstrip_last_not (l : List Char) (c : Char) (h : (rstrip l).getLast? = some c) :
    pyIsSpace c = false := by
  rw [rstrip, List.getLast?_reverse] at h
  exact dropWhile_head_not _ c h

theorem rstrip_eq_self (l : List Char) (h : ∀ c, l.getLast? = some c → pyIsSpace c = false) :
    rstrip l = l := by
  rw [rstrip]
  cases hr : l.reverse with
  | nil =>
    have hl : l = [] := List.reverse_eq_nil_iff.1 hr
    rw [hl]
    rfl
  | cons c t =>
    have hc : pyIsSpace c = false := by
      apply h
      rw [← List.head?_reverse, hr]
      rfl
    rw [List.dropWhile_cons, hc, if_neg (by simp)]
    have := congrArg List.reverse hr
    rw [List.reverse_reverse] at this
    rw [← hr, List.reverse_reverse]

theorem rstrip_append (u v : List Char) (hv : rstrip v ≠ []) :
    rstrip (u ++ v) = u ++ rstrip v := by
  have hv' : (v.reverse.dropWhile pyIsSpace).isEmpty = false := by
    cases hcase : v.reverse.dropWhile pyIsSpace with
    | nil =>
      exfalso
      apply hv
      rw [rstrip, hcase]
      rfl
    | cons a t => rfl
  rw [rstrip, List.reverse_append, dropWhile_app, hv', if_neg (by simp)]
  rw [List.reverse_append, List.reverse_reverse, rstrip]

theorem rstrip_append_nil (u v : List Char) (hv : rstrip v = []) :
    rstrip (u ++ v) = rstrip u := by
  have hv' : (v.reverse.dropWhile pyIsSpace).isEmpty = true := by
    have : (v.reverse.dropWhile pyIsSpace).reverse = [] := hv
    have h2 := congrArg List.reverse this
    rw [List.reverse_reverse] at h2
    rw [h2]
    rfl
  rw [rstrip, List.reverse_append, dropWhile_app, hv', if_pos rfl]
  rfl

theorem lstrip_suf (l : List Char) : lstrip l <:+ l := List.dropWhile_suffix pyIsSpace

theorem lstrip_head_not (l : List Char) (c : Char) (h : (lstrip l).head? = some c) :
    pyIsSpace c = false :=
  dropWhile_head_not l c h

theorem lstrip_eq_self (l : List Char) (h : ∀ c, l.head? = some c → pyIsSpace c = false) :
    lstrip l = l := by
  cases l with
  | nil => rfl
  | cons a t =>
    rw [lstrip, List.dropWhile_cons, h a rfl, if_neg (by simp)]

theorem stripSemi_pre (l : List Char) : stripSemi l <+: l := by
  rw [stripSemi]
  split
  · exact dropLast_pre l
  · exact ⟨[], by simp⟩

theorem stripSemi_eq_self (l : List Char) (h : l.getLast? ≠ some ';') : stripSemi l = l := by
  rw [stripSemi, if_neg h]

theorem stripSemi_nil_iff (l : List Char) : stripSemi l = [] ↔ l = [] ∨ l = [';'] := by
  rw [stripSemi]
  split
  case isTrue h =>
    constructor
    · intro hd
      right
      cases l with
      | nil => simp at h
      | cons a t =>
        cases t with
        | nil =>
          simp at h
          rw [h]
        | cons b t2 => simp [List.dropLast] at hd
    · rintro (rfl | rfl)
      · simp at h
      · rfl
  case isFalse h =>
    constructor
    · intro hd
      exact Or.inl hd
    · rintro (rfl | rfl)
      · rfl
      · exact absurd rfl h

/-! ## Character-case lemmas -/

theorem pyIsSpace_toLower {c : Char} (h : pyIsSpace c = true) : Char.toLower c = c := by
  rw [pyIsSpace] at h
  simp only [Bool.or_eq_true, beq_iff_eq] at h
  rcases h with ((((rfl | rfl) | rfl) | rfl) | rfl) | rfl <;> decide

theorem not_space_of_lower {c x : Char} (hx : Char.toLower c = x) (hxs : pyIsSpace x = false) :
    pyIsSpace c = false := by
  cases hsp : pyIsSpace c with
  | false => rfl
  | true =>
    rw [pyIsSpace_toLower hsp] at hx
    subst hx
    rw [hsp] at hxs
    simp at hxs

/-! ## Pattern-shape lemmas -/

theorem map_cons_shape {f : Char → Char} {cs : List Char} {b : Char} {bs : List Char}
    (h : cs.map f = b :: bs) : ∃ a as, cs = a :: as ∧ f a = b ∧ as.map f = bs := by
  cases cs with
  | nil => simp at h
  | cons a as =>
    simp only [List.map_cons, List.cons.injEq] at h
    exact ⟨a, as, rfl, h.1, h.2⟩

theorem pat_shape {cs : List Char}
    (h : selectSpacePat.isPrefixOf (cs.map Char.toLower) = true) :
    ∃ a1 a2 a3 a4 a5 a6 c w, cs = a1 :: a2 :: a3 :: a4 :: a5 :: a6 :: c :: w ∧
      Char.toLower a1 = 's' ∧ Char.toLower a2 = 'e' ∧ Char.toLower a3 = 'l' ∧
      Char.toLower a4 = 'e' ∧ Char.toLower a5 = 'c' ∧ Char.toLower a6 = 't' ∧
      Char.toLower c = ' ' := by
  obtain ⟨t, ht⟩ := (isPre_iff _ _).1 h
  have ht' : cs.map Char.toLower = 's' :: 'e' :: 'l' :: 'e' :: 'c' :: 't' :: ' ' :: t := by
    rw [← ht]
    rfl
  obtain ⟨a1, r1, rfl, h1, hm1⟩ := map_cons_shape ht'
  obtain ⟨a2, r2, rfl, h2, hm2⟩ := map_cons_shape hm1
  obtain ⟨a3, r3, rfl, h3, hm3⟩ := map_cons_shape hm2
  obtain ⟨a4, r4, rfl, h4, hm4⟩ := map_cons_shape hm3
  obtain ⟨a5, r5, rfl, h5, hm5⟩ := map_cons_shape hm4
  obtain ⟨a6, r6, rfl, h6, hm6⟩ := map_cons_shape hm5
  obtain ⟨c, w, rfl, h7, _⟩ := map_cons_shape hm6
  exact ⟨a1, a2, a3, a4, a5, a6, c, w, rfl, h1, h2, h3, h4, h5, h6, h7⟩

/-! ## Lemmas about `findFrom` -/

theorem occursAt_nil (i : Nat) : occursAt [] i = false := by
  rw [occursAt]
  cases i <;> rfl

theorem occursAt_cons_succ (c : Char) (t : List Char) (i : Nat) :
    occursAt (c :: t) (i + 1) = occursAt t i := rfl

theorem findFrom_none_iff : ∀ (cs : List Char), findFrom cs = none ↔ ∀ i, occursAt cs i = false
  | [] => by
    constructor
    · intro _ i
      exact occursAt_nil i
    · intro _
      rfl
  | c :: t => by
    constructor
    · intro h i
      rw [findFrom] at h
      by_cases hP : selectSpacePat.isPrefixOf ((c :: t).map Char.toLower) = true
      · rw [if_pos hP] at h
        exact absurd h (by simp)
      · rw [if_neg hP] at h
        cases i with
        | zero => simpa [occursAt] using Bool.of_not_eq_true hP
        | succ i =>
          rw [occursAt_cons_succ]
          exact (findFrom_none_iff t).1 h i
    · intro h
      have h0 := h 0
      rw [occursAt] at h0
      simp only [List.drop_zero] at h0
      rw [findFrom, if_neg (by rw [h0]; exact Bool.false_ne_true)]
      exact (findFrom_none_iff t).2 (fun i => by
        have hi := h (i + 1)
        rwa [occursAt_cons_succ] at hi)

theorem findFrom_some_pat : ∀ (cs suf : List Char), findFrom cs = some suf →
    selectSpacePat.isPrefixOf (suf.map Char.toLower) = true
  | [], suf => by
    intro h
    simp [findFrom] at h
  | c :: t, suf => by
    intro h
    rw [findFrom] at h
    by_cases hP : selectSpacePat.isPrefixOf ((c :: t).map Char.toLower) = true
    · rw [if_pos hP] at h
      obtain rfl := Option.some.inj h
      exact hP
    · rw [if_neg hP] at h
      exact findFrom_some_pat t suf h

theorem findFrom_first : ∀ (cs suf : List Char), findFrom cs = some suf →
    ∃ i, cs.drop i = suf ∧ occursAt cs i = true ∧ ∀ j, j < i → occursAt cs j = false
  | [], suf => by
    intro h
    simp [findFrom] at h
  | c :: t, suf => by
    intro h
    rw [findFrom] at h
    by_cases hP : selectSpacePat.isPrefixOf ((c :: t).map Char.toLower) = true
    · rw [if_pos hP] at h
      obtain rfl := Option.some.inj h
      exact ⟨0, rfl, by simpa [occursAt] using hP, fun j hj => absurd hj (by omega)⟩
    · rw [if_neg hP] at h
      obtain ⟨i, hd, ho, hf⟩ := findFrom_first t suf h
      refine ⟨i + 1, by simpa using hd, by rwa [occursAt_cons_succ], ?_⟩
      intro j hj
      cases j with
      | zero => simpa [occursAt] using Bool.of_not_eq_true hP
      | succ j =>
        rw [occursAt_cons_succ]
        exact hf j (by omega)

theorem findFrom_of_head (cs : List Char)
    (h : selectSpacePat.isPrefixOf (cs.map Char.toLower) = true) : findFrom cs = some cs := by
  cases cs with
  | nil =>
    exfalso
    have := pre_length ((isPre_iff _ _).1 h)
    simp [selectSpacePat] at this
  | cons c t => rw [findFrom, if_pos h]

theorem findFrom_short (cs : List Char) (h : cs.length < 7) : findFrom cs = none := by
  rw [findFrom_none_iff]
  intro i
  cases hocc : occursAt cs i with
  | false => rfl
  | true =>
    exfalso
    rw [occursAt] at hocc
    have hlen := pre_length ((isPre_iff _ _).1 hocc)
    simp [selectSpacePat, List.length_map, List.length_drop] at hlen
    omega

theorem occurs_mono_pre {l₁ l₂ : List Char} (h : l₁ <+: l₂) {i : Nat}
    (ho : occursAt l₁ i = true) : occursAt l₂ i = true := by
  obtain ⟨t, rfl⟩ := h
  rw [occursAt] at ho ⊢
  rw [List.drop_append_eq_append_drop, List.map_append]
  exact (isPre_iff _ _).2 (pre_append_left _ ((isPre_iff _ _).1 ho))

theorem occurs_mono_suf {l₁ l₂ : List Char} (h : l₁ <:+ l₂) {i : Nat}
    (ho : occursAt l₁ i = true) : ∃ j, occursAt l₂ j = true := by
  obtain ⟨t, rfl⟩ := h
  refine ⟨t.length + i, ?_⟩
  rw [occursAt] at ho ⊢
  rw [List.drop_append_eq_append_drop, List.drop_of_length_le (by omega)]
  have : t.length + i - t.length = i := by omega
  rw [this, List.nil_append]
  exact ho

theorem findFrom_none_of_infix {l₁ l₂ : List Char} (hpre : l₁ <+: l₂) {l₃ : List Char}
    (hsuf : l₂ <:+ l₃) (h : findFrom l₃ = none) : findFrom l₁ = none := by
  rw [findFrom_none_iff]
  intro i
  cases hocc : occursAt l₁ i with
  | false => rfl
  | true =>
    exfalso
    obtain ⟨j, hj⟩ := occurs_mono_suf hsuf (occurs_mono_pre hpre hocc)
    have := (findFrom_none_iff l₃).1 h j
    rw [hj] at this
    simp at this

/-! ## Analysis of the extraction pipeline -/

theorem getLast_app {α : Type _} (a b : List α) (hb : b ≠ []) :
    (a ++ b).getLast? = b.getLast? := by
  rw [← List.head?_reverse, ← List.head?_reverse, List.reverse_append]
  cases hbr : b.reverse with
  | nil => exact absurd (List.reverse_eq_nil_iff.1 hbr) hb
  | cons c t => rfl

theorem dropLast_app {α : Type _} (a b : List α) (hb : b ≠ []) :
    (a ++ b).dropLast = a ++ b.dropLast := by
  have h1 := List.dropLast_append_getLast hb
  calc (a ++ b).dropLast
      = ((a ++ b.dropLast) ++ [b.getLast hb]).dropLast := by
        rw [List.append_assoc, h1]
    _ = a ++ b.dropLast := by rw [List.dropLast_concat]

theorem extractCore_eq_some (cs suf : List Char) (h : findFrom cs = some suf) :
    extractCore cs = stripSemi (pyStrip suf) := by
  unfold extractCore
  rw [h]

theorem extractCore_eq_none (cs : List Char) (h : findFrom cs = none) :
    extractCore cs = stripSemi (pyStrip cs) := by
  unfold extractCore
  rw [h]

theorem extract_fix (r : List Char)
    (hhead : ∀ c, r.head? = some c → pyIsSpace c = false)
    (hlast : ∀ c, r.getLast? = some c → pyIsSpace c = false)
    (hsemi : r.getLast? ≠ some ';')
    (hfind : findFrom r = none ∨ findFrom r = some r) :
    extractCore r = r := by
  have hstrip : pyStrip r = r := by
    rw [pyStrip, lstrip_eq_self r hhead, rstrip_eq_self r hlast]
  rcases hfind with hf | hf
  · rw [extractCore_eq_none r hf, hstrip, stripSemi_eq_self r hsemi]
  · rw [extractCore_eq_some r r hf, hstrip, stripSemi_eq_self r hsemi]

theorem suf_head_not {suf : List Char}
    (hp : selectSpacePat.isPrefixOf (suf.map Char.toLower) = true) :
    ∀ c, suf.head? = some c → pyIsSpace c = false := by
  obtain ⟨a1, a2, a3, a4, a5, a6, c6, w, rfl, h1, _⟩ := pat_shape hp
  intro c hc
  simp at hc
  subst hc
  exact not_space_of_lower h1 (by decide)

theorem pat_pre_of_lower {a1 a2 a3 a4 a5 a6 c : Char} {t : List Char}
    (h1 : Char.toLower a1 = 's') (h2 : Char.toLower a2 = 'e') (h3 : Char.toLower a3 = 'l')
    (h4 : Char.toLower a4 = 'e') (h5 : Char.toLower a5 = 'c') (h6 : Char.toLower a6 = 't')
    (h7 : Char.toLower c = ' ') :
    selectSpacePat.isPrefixOf
      ((a1 :: a2 :: a3 :: a4 :: a5 :: a6 :: c :: t).map Char.toLower) = true := by
  simp [selectSpacePat, List.isPrefixOf, h1, h2, h3, h4, h5, h6, h7]

theorem extract_some_analysis (cs suf : List Char) (hf : findFrom cs = some suf) :
    extractCore cs ≠ [] ∧
    (∀ c, (extractCore cs).head? = some c → pyIsSpace c = false) ∧
    (findFrom (extractCore cs) = none ∨ findFrom (extractCore cs) = some (extractCore cs)) := by
  have hp := findFrom_some_pat cs suf hf
  obtain ⟨a1, a2, a3, a4, a5, a6, c6, w, rfl, h1, h2, h3, h4, h5, h6, h7⟩ := pat_shape hp
  have hheadsuf : ∀ c,
      (a1 :: a2 :: a3 :: a4 :: a5 :: a6 :: c6 :: w).head? = some c → pyIsSpace c = false := by
    intro c hc
    simp at hc
    subst hc
    exact not_space_of_lower h1 (by decide)
  have hE : extractCore cs
      = stripSemi (rstrip (a1 :: a2 :: a3 :: a4 :: a5 :: a6 :: c6 :: w)) := by
    rw [extractCore_eq_some _ _ hf, pyStrip, lstrip_eq_self _ hheadsuf]
  have hsplit : (a1 :: a2 :: a3 :: a4 :: a5 :: a6 :: c6 :: w)
      = [a1, a2, a3, a4, a5, a6] ++ (c6 :: w) := rfl
  by_cases hrv : rstrip (c6 :: w) = []
  · have hu6last : ([a1, a2, a3, a4, a5, a6] : List Char).getLast? = some a6 := by simp
    have hu6 : rstrip ([a1, a2, a3, a4, a5, a6] : List Char) = [a1, a2, a3, a4, a5, a6] := by
      apply rstrip_eq_self
      intro c hc
      rw [hu6last] at hc
      obtain rfl := Option.some.inj hc
      exact not_space_of_lower h6 (by decide)
    have hrs : rstrip (a1 :: a2 :: a3 :: a4 :: a5 :: a6 :: c6 :: w)
        = [a1, a2, a3, a4, a5, a6] := by
      rw [hsplit, rstrip_append_nil _ _ hrv, hu6]
    have hsemiu : ([a1, a2, a3, a4, a5, a6] : List Char).getLast? ≠ some ';' := by
      rw [hu6last]
      intro hc
      rw [Option.some.inj hc] at h6
      exact absurd h6 (by decide)
    have hr : extractCore cs = [a1, a2, a3, a4, a5, a6] := by
      rw [hE, hrs, stripSemi_eq_self _ hsemiu]
    refine ⟨?_, ?_, Or.inl ?_⟩
    · rw [hr]
      simp
    · intro c hc
      rw [hr] at hc
      simp at hc
      subst hc
      exact not_space_of_lower h1 (by decide)
    · rw [hr]
      exact findFrom_short _ (by simp)
  · obtain ⟨ds, hds⟩ : ∃ ds, rstrip (c6 :: w) = c6 :: ds := by
      cases hcase : rstrip (c6 :: w) with
      | nil => exact absurd hcase hrv
      | cons d ds =>
        have hh := pre_head (rstrip_pre (c6 :: w)) (c := d) (by rw [hcase]; rfl)
        have hd : c6 = d := by simpa using hh
        exact ⟨ds, by rw [← hd]⟩
    have hrs : rstrip (a1 :: a2 :: a3 :: a4 :: a5 :: a6 :: c6 :: w)
        = [a1, a2, a3, a4, a5, a6] ++ c6 :: ds := by
      rw [hsplit, rstrip_append _ _ hrv, hds]
    have hconv : ([a1, a2, a3, a4, a5, a6] ++ c6 :: ds)
        = (a1 :: a2 :: a3 :: a4 :: a5 :: a6 :: c6 :: ds) := rfl
    by_cases hsc : (a1 :: a2 :: a3 :: a4 :: a5 :: a6 :: c6 :: ds).getLast? = some ';'
    · have hdsne : ds ≠ [] := by
        intro hd0
        subst hd0
        have hlast1 : ([a1, a2, a3, a4, a5, a6] ++ [c6]).getLast? = some c6 :=
          List.getLast?_concat _
        rw [show (a1 :: a2 :: a3 :: a4 :: a5 :: a6 :: c6 :: ([] : List Char))
            = [a1, a2, a3, a4, a5, a6] ++ [c6] from rfl, hlast1] at hsc
        rw [Option.some.inj hsc] at h7
        exact absurd h7 (by decide)
      have hdrop : (a1 :: a2 :: a3 :: a4 :: a5 :: a6 :: c6 :: ds).dropLast
          = a1 :: a2 :: a3 :: a4 :: a5 :: a6 :: c6 :: ds.dropLast := by
        have hda := dropLast_app ([a1, a2, a3, a4, a5, a6, c6]) ds hdsne
        simpa using hda
      have hr : extractCore cs = a1 :: a2 :: a3 :: a4 :: a5 :: a6 :: c6 :: ds.dropLast := by
        rw [hE, hrs, hconv, stripSemi, if_pos hsc, hdrop]
      refine ⟨?_, ?_, Or.inr ?_⟩
      · rw [hr]
        simp
      · intro c hc
        rw [hr] at hc
        simp at hc
        subst hc
        exact not_space_of_lower h1 (by decide)
      · rw [hr]
        exact findFrom_of_head _ (pat_pre_of_lower h1 h2 h3 h4 h5 h6 h7)
    · have hr : extractCore cs = a1 :: a2 :: a3 :: a4 :: a5 :: a6 :: c6 :: ds := by
        rw [hE, hrs, hconv, stripSemi_eq_self _ hsc]
      refine ⟨?_, ?_, Or.inr ?_⟩
      · rw [hr]
        simp
      · intro c hc
        rw [hr] at hc
        simp at hc
        subst hc
        exact not_space_of_lower h1 (by decide)
      · rw [hr]
        exact findFrom_of_head _ (pat_pre_of_lower h1 h2 h3 h4 h5 h6 h7)

theorem extract_none_analysis (cs : List Char) (hf : findFrom cs = none) :
    (∀ c, (extractCore cs).head? = some c → pyIsSpace c = false) ∧
    findFrom (extractCore cs) = none := by
  have hE : extractCore cs = stripSemi (rstrip (lstrip cs)) := by
    rw [extractCore_eq_none cs hf, pyStrip]
  constructor
  · intro c hc
    rw [hE] at hc
    have h1 : (rstrip (lstrip cs)).head? = some c := pre_head (stripSemi_pre _) hc
    have h2 : (lstrip cs).head? = some c := pre_head (rstrip_pre _) h1
    exact lstrip_head_not cs c h2
  · rw [hE]
    exact findFrom_none_of_infix
      (pre_trans (stripSemi_pre _) (rstrip_pre _)) (lstrip_suf cs) hf

theorem extractCore_eq_nil_iff (cs : List Char) :
    extractCore cs = [] ↔ findFrom cs = none ∧ (pyStrip cs = [] ∨ pyStrip cs = [';']) := by
  cases hfc : findFrom cs with
  | some suf =>
    obtain ⟨hne, _, _⟩ := extract_some_analysis cs suf hfc
    constructor
    · intro h
      exact absurd h hne
    · rintro ⟨h, _⟩
      exact absurd h (by simp)
  | none =>
    rw [extractCore_eq_none cs hfc]
    constructor
    · intro h
      exact ⟨rfl, (stripSemi_nil_iff _).1 h⟩
    · rintro ⟨_, h⟩
      exact (stripSemi_nil_iff _).2 h

theorem extract_eq_empty_iff (s : String) : extract s = "" ↔ extractCore s.data = [] := by
  constructor
  · intro h
    have hd := congrArg String.data h
    simpa [extract] using hd
  · intro h
    rw [extract, h]

/-! ## Lemmas about the conversation state machine -/

theorem lastContent_eq (msgs : List Turn) (t : Turn) (h : msgs.getLast? = some t) :
    lastContent msgs = t.content := by
  unfold lastContent
  rw [h]

theorem two_decomp {msgs : List Turn} (h : 2 ≤ msgs.length) :
    ∃ pre a b, msgs = pre ++ [a, b] := by
  cases hr : msgs.reverse with
  | nil =>
    have hm : msgs = [] := List.reverse_eq_nil_iff.1 hr
    rw [hm] at h
    simp at h
  | cons b r2 =>
    cases r2 with
    | nil =>
      have hm := congrArg List.reverse hr
      rw [List.reverse_reverse] at hm
      rw [hm] at h
      simp at h
    | cons a r3 =>
      have hm := congrArg List.reverse hr
      rw [List.reverse_reverse] at hm
      refine ⟨r3.reverse, a, b, ?_⟩
      rw [hm]
      simp

theorem getLast_two {α : Type _} (pre : List α) (a b : α) :
    (pre ++ [a, b]).getLast? = some b := by
  rw [show pre ++ [a, b] = (pre ++ [a]) ++ [b] by simp, List.getLast?_concat]

theorem get_app_len {α : Type _} (x y : α) : ∀ (pre : List α),
    (pre ++ [x, y])[pre.length]? = some x
  | [] => rfl
  | c :: pre => by
    rw [List.length_cons, List.cons_append, List.getElem?_cons_succ]
    exact get_app_len x y pre

theorem set_app_len {α : Type _} (x : α) : ∀ (pre l : List α),
    (pre ++ l).set pre.length x = pre ++ l.set 0 x
  | [], _ => rfl
  | c :: pre, l => congrArg (List.cons c) (set_app_len x pre l)

theorem mergeAt_eq (pre : List Turn) (a b : Turn) (u : String) :
    mergeAt (pre ++ [a, b]) u = pre ++ [⟨a.role, a.content ++ " " ++ u⟩, b] := by
  have hlen : (pre ++ [a, b]).length - 2 = pre.length := by simp
  unfold mergeAt
  rw [hlen, get_app_len a b pre]
  show (pre ++ [a, b]).set pre.length ⟨a.role, a.content ++ " " ++ u⟩
      = pre ++ [⟨a.role, a.content ++ " " ++ u⟩, b]
  rw [set_app_len]
  rfl

theorem handleUserInput_merge (msgs : List Turn) (u : String) (t : Turn)
    (hlast : msgs.getLast? = some t) (hsig : signalsClarification t.content = true)
    (hlen : 2 ≤ msgs.length) :
    handleUserInput msgs u = mergeAt msgs u := by
  have hc : 2 ≤ msgs.length ∧ signalsClarification (lastContent msgs) = true :=
    ⟨hlen, by rw [lastContent_eq msgs t hlast]; exact hsig⟩
  unfold handleUserInput
  rw [if_pos hc]

theorem handleUserInput_append (msgs : List Turn) (u : String)
    (h : ¬(2 ≤ msgs.length ∧ signalsClarification (lastContent msgs) = true)) :
    handleUserInput msgs u = msgs ++ [⟨Role.user, u⟩] := by
  unfold handleUserInput
  rw [if_neg h]

theorem reachable_last_assistant {msgs : List Turn} (h : Reachable msgs) :
    msgs = [] ∨ ∃ t, msgs.getLast? = some t ∧ t.role = Role.assistant := by
  induction h with
  | empty => exact Or.inl rfl
  | step msgs2 u resp execErr _ _ =>
    right
    refine ⟨Turn.mk Role.assistant (assistantReply resp execErr).1, ?_, rfl⟩
    show (handleUserInput msgs2 u
        ++ [Turn.mk Role.assistant (assistantReply resp execErr).1]).getLast? = _
    exact List.getLast?_concat _

/-! ## The caught-inference-error string is never a clarification marker -/

theorem errPrefix_not_marker (e : String) :
    pyStartsWith ( "Error generating SQL: " ++ e).data clarificationMarker.data = false := by
  cases hb : pyStartsWith ( "Error generating SQL: " ++ e).data clarificationMarker.data with
  | false => rfl
  | true =>
    exfalso
    rw [pyStartsWith] at hb
    obtain ⟨t, ht⟩ := (isPre_iff _ _).1 hb
    rw [String.data_append] at ht
    have h14 := congrArg (List.take 14) ht
    rw [List.take_append_of_le_length (by decide),
      List.take_append_of_le_length (by decide)] at h14
    exact absurd h14 (by decide)

/-! ## Claim theorems -/

/-- C1: clarification merge.  For every conversation whose last turn is an
assistant turn signalling a clarification request (with at least 2 stored
turns), submitting new user text `u` appends a single space and `u` to the
second-to-last turn's content and appends no new user turn; in every other
situation reachable by the program a new user turn with content `u` is
appended unchanged.  The third conjunct checks the concrete example of the
specification.  (On reachable conversations the program's own test — the word
`clarification` occurring in the last stored content — coincides with the
claim's condition, because every nonempty reachable conversation ends in an
assistant turn.) -/
theorem C1_clarification_merge :
    (∀ (msgs : List Turn) (u : String) (t : Turn),
        msgs.getLast? = some t → t.role = Role.assistant →
        signalsClarification t.content = true → 2 ≤ msgs.length →
        ∃ pre prev, msgs = pre ++ [prev, t] ∧
          handleUserInput msgs u = pre ++ [⟨prev.role, prev.content ++ " " ++ u⟩, t]) ∧
    (∀ (msgs : List Turn) (u : String), Reachable msgs →
        ¬(2 ≤ msgs.length ∧ ∃ t, msgs.getLast? = some t ∧ t.role = Role.assistant ∧
            signalsClarification t.content = true) →
        handleUserInput msgs u = msgs ++ [⟨Role.user, u⟩]) ∧
    handleUserInput [⟨Role.user, "Show transactions"⟩,
        ⟨Role.assistant, "CLARIFICATION: which period?"⟩] "last 7 days"
      = [⟨Role.user, "Show transactions last 7 days"⟩,
         ⟨Role.assistant, "CLARIFICATION: which period?"⟩] := by
  refine ⟨?_, ?_, by decide⟩
  · intro msgs u t hlast hrole hsig hlen
    obtain ⟨pre, a, b, rfl⟩ := two_decomp hlen
    have hb : b = t := by
      rw [getLast_two] at hlast
      exact Option.some.inj hlast
    subst hb
    refine ⟨pre, a, rfl, ?_⟩
    rw [handleUserInput_merge _ u b (getLast_two pre a b) hsig hlen, mergeAt_eq]
  · intro msgs u hreach hnot
    apply handleUserInput_append
    rintro ⟨hlen, hsig⟩
    rcases reachable_last_assistant hreach with rfl | ⟨t, hlast, hrole⟩
    · simp at hlen
    · apply hnot
      refine ⟨hlen, t, hlast, hrole, ?_⟩
      rwa [lastContent_eq msgs t hlast] at hsig

/-- Witness for C1: the merge branch applied to a concrete reachable-style
conversation, and the append branch applied to the empty (initial, reachable)
conversation. -/
theorem C1_clarification_merge_witness :
    (∃ pre prev,
        ([⟨Role.user, "Show transactions"⟩,
          ⟨Role.assistant, "CLARIFICATION: which period?"⟩] : List Turn)
          = pre ++ [prev, ⟨Role.assistant, "CLARIFICATION: which period?"⟩] ∧
        handleUserInput [⟨Role.user, "Show transactions"⟩,
          ⟨Role.assistant, "CLARIFICATION: which period?"⟩] "last 7 days"
          = pre ++ [⟨prev.role, prev.content ++ " " ++ "last 7 days"⟩,
            ⟨Role.assistant, "CLARIFICATION: which period?"⟩]) ∧
    handleUserInput [] "hello" = [⟨Role.user, "hello"⟩] :=
  ⟨C1_clarification_merge.1
      [⟨Role.user, "Show transactions"⟩, ⟨Role.assistant, "CLARIFICATION: which period?"⟩]
      "last 7 days" ⟨Role.assistant, "CLARIFICATION: which period?"⟩
      (by decide) rfl (by decide) (by decide),
   C1_clarification_merge.2.1 [] "hello" Reachable.empty (by simp)⟩

/-- C2: for every inference response starting with the marker
`CLARIFICATION:`, no relational-store call occurs that round (both in the app
round and in the test harness), and in the test harness the resulting
`TestResult` has `clarification_requested = true` (with status
`CLARIFICATION_REQUESTED`). -/
theorem C2_clarification_no_query :
    (∀ (msgs : List Turn) (u r : String) (execErr : Option String),
        pyStartsWith r.data clarificationMarker.data = true →
        (roundStepFull msgs u (some r) execErr).2 = false) ∧
    (∀ (id q : String) (llm : Except String String)
        (exec : String → Except String Nat) (t : ℚ),
        pyStartsWith (generate_sql llm).data clarificationMarker.data = true →
        (execute_test_case id q llm exec t).2 = false ∧
        (execute_test_case id q llm exec t).1.clarification_requested = true ∧
        (execute_test_case id q llm exec t).1.execution_status
          = "CLARIFICATION_REQUESTED") := by
  constructor
  · intro msgs u r execErr h
    show (assistantReply (some r) execErr).2 = false
    simp only [assistantReply]
    rw [if_pos h]
  · intro id q llm exec t h
    unfold execute_test_case
    rw [if_pos h]
    exact ⟨rfl, rfl, rfl⟩

/-- Witness for C2 at a concrete marker response. -/
theorem C2_clarification_no_query_witness :
    (roundStepFull [] "q" (some "CLARIFICATION: which period?") none).2 = false ∧
    (execute_test_case "T1" "q" (Except.ok "CLARIFICATION: which period?")
        (fun _ => Except.ok 0) 1).2 = false ∧
    (execute_test_case "T1" "q" (Except.ok "CLARIFICATION: which period?")
        (fun _ => Except.ok 0) 1).1.clarification_requested = true :=
  ⟨C2_clarification_no_query.1 [] "q" "CLARIFICATION: which period?" none (by decide),
   (C2_clarification_no_query.2 "T1" "q" (Except.ok "CLARIFICATION: which period?")
      (fun _ => Except.ok 0) 1 (by decide)).1,
   (C2_clarification_no_query.2 "T1" "q" (Except.ok "CLARIFICATION: which period?")
      (fun _ => Except.ok 0) 1 (by decide)).2.1⟩

/-- C3 counterexample: the extractor is not idempotent.  On the input
`"SELECT ;"` one application yields `"SELECT "` (the semicolon is dropped but
the newly exposed trailing space is not re-stripped), while a second
application yields `"SELECT"`, so applying the algorithm twice differs from
applying it once. -/
theorem C3_counterexample :
    extract "SELECT ;" = "SELECT " ∧ extract (extract "SELECT ;") = "SELECT" ∧
    ( "SELECT " : String) ≠ "SELECT" :=
  ⟨by decide, by decide, by decide⟩

/-- C3 amended: the extractor is idempotent on every input whose extracted
output ends in neither a semicolon nor a whitespace character (the two
trailing shapes a single `';'`-drop can expose are exactly what breaks
idempotence). -/
theorem C3_amended_idempotent (cs : List Char)
    (h : goodEnd (extractCore cs).getLast? = true) :
    extractCore (extractCore cs) = extractCore cs := by
  have hl : ∀ c, (extractCore cs).getLast? = some c → pyIsSpace c = false := by
    intro c hc
    rw [hc] at h
    simp [goodEnd] at h
    exact h.2
  have hs : (extractCore cs).getLast? ≠ some ';' := by
    intro hc
    rw [hc] at h
    simp [goodEnd] at h
  cases hfc : findFrom cs with
  | some suf =>
    obtain ⟨_, hh, hfr⟩ := extract_some_analysis cs suf hfc
    exact extract_fix _ hh hl hs hfr
  | none =>
    obtain ⟨hh, hfr⟩ := extract_none_analysis cs hfc
    exact extract_fix _ hh hl hs (Or.inl hfr)

/-- Witness for the amended C3 at the concrete input `"SELECT 1"`. -/
theorem C3_amended_idempotent_witness :
    goodEnd (extractCore ( "SELECT 1".data)).getLast? = true ∧
    extractCore (extractCore ( "SELECT 1".data)) = extractCore ( "SELECT 1".data) :=
  ⟨by decide, C3_amended_idempotent ( "SELECT 1".data) (by decide)⟩

/-- C4 counterexample: the input `"x SELECT 1; "` contains the token `SELECT`
(case-insensitively, at position 2), yet the extractor's output
`"SELECT 1"` is not a suffix of the input at all (the trailing `"; "` was
stripped), so it is not "a suffix of the input starting at or after the first
occurrence of SELECT".  (A second failure mode, not needed here: the regex
requires `SELECT` followed by a space, so `"x SELECT"` is not matched and the
output then starts at position 0, before the token.) -/
theorem C4_counterexample :
    containsList selectWordPat ( "x SELECT 1; ".data.map Char.toLower) = true ∧
    extract "x SELECT 1; " = "SELECT 1" ∧
    ¬∃ j : Nat, (extract "x SELECT 1; ").data = "x SELECT 1; ".data.drop j := by
  refine ⟨by decide, by decide, ?_⟩
  rintro ⟨j, hj⟩
  have hlen := congrArg List.length hj
  rw [List.length_drop] at hlen
  have h1 : (extract "x SELECT 1; ").data.length = 8 := by decide
  have h2 : ( "x SELECT 1; ".data).length = 12 := by decide
  have hj4 : j = 4 := by omega
  subst hj4
  exact absurd hj (by decide)

/-- C4 amended: whenever the regex `SELECT .*` matches — that is, the input
contains `SELECT` followed by a space, case-insensitively — the extractor's
output is a prefix of the input's suffix beginning at the first such match
position; in particular it begins at that first occurrence, never earlier.
Inputs where the match fails (including those containing a bare `SELECT`
with no following space) fall back to the whole trimmed text. -/
theorem C4_amended_starts_at_match (s : String) (suf : List Char)
    (hf : findFrom s.data = some suf) :
    ∃ i, s.data.drop i = suf ∧ occursAt s.data i = true ∧
      (∀ j, j < i → occursAt s.data j = false) ∧ (extract s).data <+: suf := by
  obtain ⟨i, hd, ho, hfst⟩ := findFrom_first _ _ hf
  refine ⟨i, hd, ho, hfst, ?_⟩
  have hp := findFrom_some_pat _ _ hf
  have hheadsuf := suf_head_not hp
  have hE : extractCore s.data = stripSemi (rstrip suf) := by
    rw [extractCore_eq_some _ _ hf, pyStrip, lstrip_eq_self _ hheadsuf]
  show extractCore s.data <+: suf
  rw [hE]
  exact pre_trans (stripSemi_pre _) (rstrip_pre _)

/-- Witness for the amended C4 at the concrete input `"ab SELECT 1"`. -/
theorem C4_amended_starts_at_match_witness :
    findFrom ( "ab SELECT 1".data) = some ( "SELECT 1".data) ∧
    ∃ i, "ab SELECT 1".data.drop i = "SELECT 1".data ∧
      occursAt "ab SELECT 1".data i = true ∧
      (∀ j, j < i → occursAt "ab SELECT 1".data j = false) ∧
      (extract "ab SELECT 1").data <+: "SELECT 1".data :=
  ⟨by decide, C4_amended_starts_at_match "ab SELECT 1" ( "SELECT 1".data) (by decide)⟩

/-- C5 counterexample: the whitespace-only input `" "` is non-empty, yet the
extractor returns the empty string (no `SELECT ` match, and `.strip()` erases
everything). -/
theorem C5_counterexample : extract " " = "" ∧ ( " " : String) ≠ "" :=
  ⟨by decide, by decide⟩

/-- C5 amended: the extractor's output is empty exactly when the regex
`SELECT .*` does not match and the trimmed input is empty or the single
character `';'`; on every other input the output is non-empty. -/
theorem C5_amended_empty_iff (s : String) :
    extract s = "" ↔
      findFrom s.data = none ∧ (pyStrip s.data = [] ∨ pyStrip s.data = [';']) := by
  rw [extract_eq_empty_iff]
  exact extractCore_eq_nil_iff s.data

/-- C6: `run_query` always returns either `(rows, none)` or `(none, error)`,
never both set and never neither.  "Never raises across the component
boundary" is modelled by totality: every exception of the store call is a
value of the `db` oracle's error case (the Python code wraps the call in a
catch-all `except` converting it to the error tuple), and the missing-file
branch produces the error tuple directly. -/
theorem C6_run_query_shape (dbFound : Bool) (dbPathMsg : String)
    (db : String → Except String (List (List String))) (q : String) :
    (∃ rows, run_query dbFound dbPathMsg db q = (some rows, none)) ∨
    (∃ e, run_query dbFound dbPathMsg db q = (none, some e)) := by
  unfold run_query
  cases dbFound with
  | false => exact Or.inr ⟨"Database not found at: " ++ dbPathMsg, rfl⟩
  | true =>
    cases hdb : db q with
    | ok rows => exact Or.inl ⟨rows, rfl⟩
    | error e => exact Or.inr ⟨e, rfl⟩

/-- C7 counterexample: after a failed inference call (no response), the code
does append an assistant turn — the advisory text itself is stored as an
assistant message (`main.py` line 167) — contradicting the claim that no
assistant turn is appended. -/
theorem C7_counterexample :
    (roundStepFull [] "hi" none none).1
      = [⟨Role.user, "hi"⟩, ⟨Role.assistant, warningMessage⟩] ∧
    ([⟨Role.user, "hi"⟩, ⟨Role.assistant, warningMessage⟩] : List Turn)
      ≠ [⟨Role.user, "hi"⟩] :=
  ⟨by decide, by decide⟩

/-- C7 amended: on a failed inference call the state machine emits the
rephrase advisory and appends it as an assistant turn (rather than appending
nothing); no store call occurs, and since the advisory text does not contain
the word `clarification`, the next user input is still treated as a new
question (appended unchanged), which preserves the claim's stated purpose. -/
theorem C7_amended_advisory_turn (msgs : List Turn) (u : String)
    (execErr : Option String) :
    (roundStepFull msgs u none execErr).1
        = handleUserInput msgs u ++ [⟨Role.assistant, warningMessage⟩] ∧
    (roundStepFull msgs u none execErr).2 = false ∧
    signalsClarification warningMessage = false ∧
    ∀ u2, handleUserInput (roundStepFull msgs u none execErr).1 u2
        = (roundStepFull msgs u none execErr).1 ++ [⟨Role.user, u2⟩] := by
  refine ⟨rfl, rfl, by decide, ?_⟩
  intro u2
  apply handleUserInput_append
  rintro ⟨_, hsig⟩
  have hlast : (roundStepFull msgs u none execErr).1.getLast?
      = some ⟨Role.assistant, warningMessage⟩ := by
    show (handleUserInput msgs u ++ [Turn.mk Role.assistant warningMessage]).getLast? = _
    exact List.getLast?_concat _
  rw [lastContent_eq _ _ hlast] at hsig
  exact absurd hsig (by decide)

/-- C8: every `TestResult` produced by `execute_test_case` satisfies the
invariant: status `CLARIFICATION_REQUESTED` holds exactly when
`clarification_requested` is true, and `result_count = 0` whenever the status
is not `PASSED`. -/
theorem C8_testresult_invariant (id q : String) (llm : Except String String)
    (exec : String → Except String Nat) (t : ℚ) :
    ((execute_test_case id q llm exec t).1.execution_status = "CLARIFICATION_REQUESTED" ↔
      (execute_test_case id q llm exec t).1.clarification_requested = true) ∧
    ((execute_test_case id q llm exec t).1.execution_status ≠ "PASSED" →
      (execute_test_case id q llm exec t).1.result_count = 0) := by
  unfold execute_test_case
  by_cases h : pyStartsWith (generate_sql llm).data clarificationMarker.data = true
  · rw [if_pos h]
    exact ⟨by simp, fun _ => rfl⟩
  · rw [if_neg h]
    cases hx : exec (extract (generate_sql llm)) with
    | ok n =>
      constructor
      · show ( "PASSED" = "CLARIFICATION_REQUESTED" ↔ false = true)
        decide
      · intro hne
        exact absurd rfl hne
    | error err =>
      constructor
      · show ( "FAILED" = "CLARIFICATION_REQUESTED" ↔ false = true)
        decide
      · intro _
        rfl

/-- Witness for C8: a clarification-marked response yields a non-`PASSED`
status whose `result_count` is 0. -/
theorem C8_testresult_invariant_witness :
    (( "CLARIFICATION_REQUESTED" : String) ≠ "PASSED") ∧
    (execute_test_case "T1" "q" (Except.ok "CLARIFICATION: which period?")
        (fun _ => Except.ok 3) 1).1.result_count = 0 :=
  ⟨by decide,
   (C8_testresult_invariant "T1" "q" (Except.ok "CLARIFICATION: which period?")
      (fun _ => Except.ok 3) 1).2 (by decide)⟩

/-- C9: the summary statistics follow the specification formulas —
`pass_rate = passed / total * 100` with value 0 when `total = 0` (no division
by zero can occur), and `average_execution_time` is the arithmetic mean of
the execution times, 0 on the empty list. -/
theorem C9_summary_stats_formulas (rs : List TestResult) :
    (generate_summary_stats rs).pass_rate = specPassRate rs ∧
    (generate_summary_stats rs).average_execution_time = specMean rs := by
  constructor
  · show (if 0 < rs.length then
        ((rs.filter (fun r => r.execution_status == "PASSED")).length : ℚ)
          / (rs.length : ℚ) * 100 else 0) = specPassRate rs
    unfold specPassRate
    by_cases h : rs.length = 0
    · rw [if_neg (by omega), if_pos h]
    · rw [if_pos (Nat.pos_of_ne_zero h), if_neg h]
  · show (if 0 < rs.length then
        (rs.map (fun r => r.execution_time)).sum / (rs.length : ℚ) else 0) = specMean rs
    unfold specMean
    by_cases h : rs = []
    · subst h
      rfl
    · rw [if_pos (List.length_pos.2 h), if_neg h]

/-- C10 (implicit): when the inference call raises, `generate_sql` catches the
exception and returns the string `"Error generating SQL: <details>"`, and
`execute_test_case` still returns a `TestResult`, treating that string as an
ordinary model response: it never starts with the clarification marker, so
`clarification_requested` is false, the string is run through the extractor
and executed (`run_query` is called), and the outcome is classified `PASSED`
or `FAILED` by the execution path rather than as a distinct status. -/
theorem C10_inference_error_path (id q e : String)
    (exec : String → Except String Nat) (t : ℚ) :
    generate_sql (Except.error e) = "Error generating SQL: " ++ e ∧
    (execute_test_case id q (Except.error e) exec t).1.clarification_requested = false ∧
    (execute_test_case id q (Except.error e) exec t).2 = true ∧
    (execute_test_case id q (Except.error e) exec t).1.generated_sql
      = extract ( "Error generating SQL: " ++ e) ∧
    ((execute_test_case id q (Except.error e) exec t).1.execution_status = "PASSED" ∨
      (execute_test_case id q (Except.error e) exec t).1.execution_status = "FAILED") := by
  have hcond : ¬(pyStartsWith (generate_sql (Except.error e)).data
      clarificationMarker.data = true) := by
    rw [show generate_sql (Except.error e) = "Error generating SQL: " ++ e from rfl,
      errPrefix_not_marker e]
    exact Bool.false_ne_true
  unfold execute_test_case
  rw [if_neg hcond]
  cases hx : exec (extract (generate_sql (Except.error e))) with
  | ok n => exact ⟨rfl, rfl, rfl, rfl, Or.inl rfl⟩
  | error err => exact ⟨rfl, rfl, rfl, rfl, Or.inr rfl⟩
